import Mathlib

/-!
Shallow embedding of `serverless_architecture.py` (EventBus,
ServerlessFunctionManager, the `event_handler` decorator) from the
legal-services repository, together with theorems settling the frozen
claims about it.

Modelling conventions:
* Python dicts that hold program data are insertion-ordered association
  lists (`List (String × α)`); `setA` is dict assignment (replace in
  place, else append), `lookupA` is dict lookup.
* Python values passed through handlers and the event bus are modelled
  by the inductive `Val` (null, bool, int, rational, string, list, dict).
* `uuid.uuid4()` is determinized as a fresh counter (`uuidCtr`), and
  `time.time()` as an explicit rational clock (`now`); each handler
  carries the wall-clock duration (`dur`) its execution consumes.
* Handlers are arbitrary Python callables in the source; they are
  embedded as functions from the payload to a program `HProg` that may
  re-register functions on the manager (the only manager-mutating
  capability any claim needs) before returning a value or raising.
  The synthetic AWS-style context is metadata no claim observes and is
  not passed to handlers.
* The optional time-series metric sink (`timeseries_manager`) is an
  external side effect that no claim observes; it is not modelled.
* `EventBus.publish` spawns one daemon thread per subscriber; the claims
  are about state, return values and which callbacks get dispatched, so
  the fan-out targets are modelled by `notified` and their eventual
  execution by the sequential `dispatchPublish`.
* `Manager.hcalls` is ghost instrumentation (not in the source): it
  counts, per function name, how many times the stored handler is
  actually executed, which is what "the handler is called k times"
  means.
-/

namespace Serverless

/-- Python values, as far as the modelled code inspects them. -/
inductive Val : Type where
  | vnull : Val
  | vbool : Bool → Val
  | vint : Int → Val
  | vrat : ℚ → Val
  | vstr : String → Val
  | vlist : List Val → Val
  | vdict : List (String × Val) → Val

/-- Dict lookup (`d[k]` / `d.get(k)`) on an association list. -/
def lookupA {α : Type} : List (String × α) → String → Option α
  | [], _ => none
  | (k, v) :: rest, key => if k = key then some v else lookupA rest key

/-- Dict assignment `d[k] = v`: replace in place if the key is present,
append otherwise (Python dicts keep insertion order). -/
def setA {α : Type} : List (String × α) → String → α → List (String × α)
  | [], key, v => [(key, v)]
  | (k, w) :: rest, key, v =>
      if k = key then (k, v) :: rest else (k, w) :: setA rest key v

/-- `d.get(k, {})`-style access on a `Val` dict; `none` on non-dicts. -/
def dictGet (v : Val) (k : String) : Option Val :=
  match v with
  | .vdict fields => lookupA fields k
  | _ => none

/-! ## EventBus -/

/-- Identity of a subscriber callback.  Python compares callbacks by
object identity; the model distinguishes the closure registered by
`register_function` for an `events` option, the closure registered by
the `event_handler` decorator (both invoke the named function with the
event), and arbitrary external callbacks. -/
inductive Callback : Type where
  | regClosure : String → Callback
  | ehClosure : String → Callback
  | ext : Nat → Callback
deriving DecidableEq

/-- An event as built by `EventBus.publish`. -/
structure Event : Type where
  id : Nat
  type : String
  data : Val
  timestamp : ℚ

/-- `EventBus` state: the subscriber dict, the bounded history, the
determinized uuid source and the ambient clock. -/
structure EventBus : Type where
  subscribers : List (String × List Callback) := []
  event_history : List Event := []
  uuidCtr : Nat := 0
  now : ℚ := 0

/-- `max_history` from `EventBus.__init__`. -/
def maxHistory : Nat := 100

/-- The event `publish` would build right now (`uuid4`, `time.time()`,
`event_data or {}`). -/
def mkEvent (b : EventBus) (event_type : String) (event_data : Option Val) : Event :=
  { id := b.uuidCtr
    type := event_type
    data := event_data.getD (.vdict [])
    timestamp := b.now }

/-- `EventBus.publish`.  Returns `False` untouched when the subscriber
dict has no entry for the type; otherwise appends the event to the
history, popping the oldest entry when the length exceeds
`max_history`.  Thread fan-out to subscribers has no effect on bus
state and is modelled separately (`notified`, `dispatchPublish`). -/
def publish (b : EventBus) (event_type : String) (event_data : Option Val) :
    Bool × EventBus :=
  match lookupA b.subscribers event_type with
  | none => (false, b)
  | some _ =>
      let ev := mkEvent b event_type event_data
      let h1 := b.event_history ++ [ev]
      let h2 := if h1.length > maxHistory then h1.drop 1 else h1
      (true, { b with event_history := h2, uuidCtr := b.uuidCtr + 1 })

/-- The callbacks `publish` spawns a thread for (subscriber list of the
event type at publish time). -/
def notified (b : EventBus) (event_type : String) : List Callback :=
  (lookupA b.subscribers event_type).getD []

/-- `EventBus.subscribe`: append the callback under the type (creating
the entry), always `True`. -/
def subscribe (b : EventBus) (event_type : String) (callback : Callback) :
    Bool × EventBus :=
  let cur := (lookupA b.subscribers event_type).getD []
  (true, { b with subscribers := setA b.subscribers event_type (cur ++ [callback]) })

/-- `list.remove`: drop the first occurrence. -/
def removeFirst : List Callback → Callback → List Callback
  | [], _ => []
  | x :: xs, c => if x = c then xs else x :: removeFirst xs c

/-- `EventBus.unsubscribe`: `False` untouched when the type has no entry
or the callback is not among its subscribers; otherwise remove the
first occurrence and return `True`. -/
def unsubscribe (b : EventBus) (event_type : String) (callback : Callback) :
    Bool × EventBus :=
  match lookupA b.subscribers event_type with
  | none => (false, b)
  | some cbs =>
      if callback ∈ cbs then
        (true, { b with subscribers := setA b.subscribers event_type (removeFirst cbs callback) })
      else (false, b)

/-- `EventBus.get_event_history`: snapshot, optionally filtered. -/
def getEventHistory (b : EventBus) (event_type : Option String) : List Event :=
  match event_type with
  | some t => b.event_history.filter (fun e => e.type = t)
  | none => b.event_history

/-! ## ServerlessFunctionManager: configuration -/

/-- A fully merged function configuration dict (`{**default_options,
**options}` restricted to the six configuration keys the code reads). -/
structure FnOptions : Type where
  timeout : Int
  memory_size : Int
  environment : Val
  concurrency : Int
  retries : Int
  events : List String

/-- `default_options` in `register_function`.  An `events` entry
`{'type': t}` is modelled by the type string `t`. -/
def defaultOptions : FnOptions :=
  { timeout := 30000
    memory_size := 128
    environment := .vdict []
    concurrency := 100
    retries := 3
    events := [] }

/-- The caller-supplied `options` dict of `register_function`: any
subset of the six configuration keys. -/
structure OptIn : Type where
  timeout : Option Int := none
  memory_size : Option Int := none
  environment : Option Val := none
  concurrency : Option Int := none
  retries : Option Int := none
  events : Option (List String) := none

/-- `{**default_options, **options}`: each present key of `options`
overrides the default. -/
def mergeOpts (d : FnOptions) (o : OptIn) : FnOptions :=
  { timeout := o.timeout.getD d.timeout
    memory_size := o.memory_size.getD d.memory_size
    environment := o.environment.getD d.environment
    concurrency := o.concurrency.getD d.concurrency
    retries := o.retries.getD d.retries
    events := o.events.getD d.events }

/-- The invocation `options` dict of `invoke_function`: the two keys the
code reads (`retries`, `client_context`). -/
structure InvOptions : Type where
  retries : Option Int := none
  client_context : Option Val := none

/-! ## Handlers

A Python handler is an arbitrary callable.  The embedding gives a
handler the capabilities a claim observes: from its payload it runs a
program that may re-register functions on the manager (`reg`) and ends
by returning a value (`ret`) or raising an exception (`raise`). -/

/-- Handler program: registrations followed by a result or an
exception.  `reg` carries the registered handler as a duration plus a
payload-indexed program. -/
inductive HProg : Type where
  | ret : Val → HProg
  | raise : String → HProg
  | reg : String → ℚ → (Val → HProg) → Option OptIn → HProg → HProg

/-- A handler: the wall-clock duration one execution consumes and the
payload-indexed program it runs. -/
structure Handler : Type where
  dur : ℚ
  prog : Val → HProg

/-- `function_config` as stored in `self.functions[name]`. -/
structure FnConfig : Type where
  name : String
  handler : Handler
  options : FnOptions

/-- `ServerlessFunctionManager` state.  `hcalls` is ghost
instrumentation counting executions of each function's handler; no
definition reads it. -/
structure Manager : Type where
  functions : List (String × FnConfig) := []
  bus : EventBus := {}
  invocations : List (String × Nat) := []
  errors : List (String × Nat) := []
  durations : List (String × List ℚ) := []
  hcalls : List (String × Nat) := []
  now : ℚ := 0

/-- `d[k] = d.get(k, 0) + 1` on a counter dict. -/
def bumpA (l : List (String × Nat)) (k : String) : List (String × Nat) :=
  setA l k ((lookupA l k).getD 0 + 1)

/-- `ServerlessFunctionManager.register_function`: merge the options
over the defaults, store the config (overwriting any previous one),
reset the three metric entries for the name, and subscribe an
invoke-closure for each declared event type when the caller passed a
non-empty `events` list.  Always returns `True`. -/
def registerFunction (m : Manager) (name : String) (handler : Handler)
    (options : Option OptIn) : Bool × Manager :=
  let o := options.getD {}
  let cfg : FnConfig := { name := name, handler := handler, options := mergeOpts defaultOptions o }
  let m1 : Manager :=
    { m with
      functions := setA m.functions name cfg
      invocations := setA m.invocations name 0
      errors := setA m.errors name 0
      durations := setA m.durations name [] }
  let evs := o.events.getD []
  let m2 : Manager :=
    if evs = [] then m1
    else { m1 with bus := evs.foldl (fun b t => (subscribe b t (.regClosure name)).2) m1.bus }
  (true, m2)

/-- Run a handler program against the manager state. -/
def runProg : Manager → HProg → Except String Val × Manager
  | m, .ret v => (.ok v, m)
  | m, .raise msg => (.error msg, m)
  | m, .reg n d f o k => runProg (registerFunction m n ⟨d, f⟩ o).2 k

/-! ## invoke_function -/

/-- The 404 result for an unknown function name. -/
def err404 (name : String) : Val :=
  .vdict [("statusCode", .vint 404),
          ("body", .vdict [("error", .vstr ("Function " ++ name ++ " not found"))])]

/-- The terminal 500 result after retry exhaustion. -/
def err500 (msg : String) : Val :=
  .vdict [("statusCode", .vint 500), ("body", .vdict [("error", .vstr msg)])]

/-- `options['retries']` of the configured function (0 when the name is
unknown; that value is never used, since the 404 path returns first). -/
def cfgRetries (m : Manager) (name : String) : Int :=
  match lookupA m.functions name with
  | some cfg => cfg.options.retries
  | none => 0

/-- `options.get('retries', config_retries) if options else
config_retries`: the retry budget `invoke_function` reads after a
handler exception. -/
def invRetries (m : Manager) (name : String) (options : Option InvOptions) : Int :=
  match options with
  | some o => o.retries.getD (cfgRetries m name)
  | none => cfgRetries m name

/-- `durations[-100:]`-style retention: keep the last 100 samples when
the list has grown past 100. -/
def trimDur (ds : List ℚ) : List ℚ :=
  if ds.length > 100 then ds.drop (ds.length - 100) else ds

/-- One pass of `invoke_function`, with explicit fuel standing in for
the source's recursion (each retry re-invocation consumes one unit; the
wrapper `invokeFunction` supplies exactly the budget the recursion
needs, see `invokeFunction_eq`).  Unknown name: 404, state untouched.
Otherwise: bump `invocations[name]`, execute the handler; on success
append the duration (keeping the last 100 samples) and return the
handler's result; on exception bump `errors[name]` and either recurse
with a decremented retry budget or return the terminal 500 result. -/
def invokeGo : Manager → String → Option Val → Option InvOptions → Nat → Val × Manager
  | m, name, payload, options, fuel =>
    match lookupA m.functions name with
    | none => (err404 name, m)
    | some cfg =>
      let m1 : Manager :=
        { m with invocations := bumpA m.invocations name, hcalls := bumpA m.hcalls name }
      let pr := runProg m1 (cfg.handler.prog (payload.getD (.vdict [])))
      let m2 : Manager := { pr.2 with now := m.now + cfg.handler.dur }
      match pr.1 with
      | .ok v =>
        let ds2 := trimDur ((lookupA m2.durations name).getD [] ++ [cfg.handler.dur])
        (v, { m2 with durations := setA m2.durations name ds2 })
      | .error msg =>
        let m3 : Manager := { m2 with errors := bumpA m2.errors name }
        let r : Int :=
          match options with
          | some o => o.retries.getD cfg.options.retries
          | none => cfg.options.retries
        if r > 0 then
          match fuel with
          | fuel' + 1 =>
              invokeGo m3 name payload (some { options.getD {} with retries := some (r - 1) }) fuel'
          | 0 => (err500 msg, m3)
        else (err500 msg, m3)

/-- `ServerlessFunctionManager.invoke_function`.  The fuel equals the
retry budget read at entry, which is exactly the depth of the source's
retry recursion (`invokeFunction_eq` below shows the wrapper satisfies
the source's recursive equation, so the fuel-out branch is never
taken). -/
def invokeFunction (m : Manager) (name : String) (payload : Option Val)
    (options : Option InvOptions) : Val × Manager :=
  invokeGo m name payload options (invRetries m name options).toNat

/-- `ServerlessFunctionManager._calculate_avg_duration`. -/
def calcAvgDuration (m : Manager) (name : String) : ℚ :=
  let ds := (lookupA m.durations name).getD []
  if ds = [] then 0 else ds.sum / ds.length

/-- One row of `list_functions`' output. -/
structure FnInfo : Type where
  name : String
  options : FnOptions
  invocations : Nat
  errors : Nat
  avg_duration : ℚ

/-- `ServerlessFunctionManager.list_functions`: pure read over the
registry; returned with the (unchanged) state to state frame
conditions. -/
def listFunctions (m : Manager) : List FnInfo × Manager :=
  (m.functions.map (fun p =>
    { name := p.1
      options := p.2.options
      invocations := (lookupA m.invocations p.1).getD 0
      errors := (lookupA m.errors p.1).getD 0
      avg_duration := calcAvgDuration m p.1 }), m)

/-! ## event_handler decorator and event dispatch -/

/-- The event dict a subscriber callback receives, as a `Val`. -/
def eventVal (e : Event) : Val :=
  .vdict [("id", .vint e.id), ("type", .vstr e.type),
          ("data", e.data), ("timestamp", .vrat e.timestamp)]

/-- `event_handler(event_type, name, options)` applied to a function
whose body is `func` (taking the extracted `payload.get('detail', {})`)
with execution time `fdur`: wrap it in a serverless handler, append
`{'type': event_type}` to the options' `events` list, register the
function (which itself subscribes an invoke-closure for each event
type), then subscribe a second invoke-closure directly. -/
def eventHandler (m : Manager) (event_type : String) (name : String)
    (fdur : ℚ) (func : Val → HProg) (options : Option OptIn) : Manager :=
  let hopts := options.getD {}
  let hopts2 : OptIn := { hopts with events := some (hopts.events.getD [] ++ [event_type]) }
  let sh : Handler := ⟨fdur, fun payload => func ((dictGet payload "detail").getD (.vdict []))⟩
  let m1 := (registerFunction m name sh (some hopts2)).2
  { m1 with bus := (subscribe m1.bus event_type (.ehClosure name)).2 }

/-- Eventual effect of the daemon thread `publish` spawns for one
callback: the two invoke-closures call `invoke_function` with the event
dict as payload; an external callback does not touch the manager. -/
def runCallback (m : Manager) (c : Callback) (e : Event) : Manager :=
  match c with
  | .regClosure n => (invokeFunction m n (some (eventVal e)) none).2
  | .ehClosure n => (invokeFunction m n (some (eventVal e)) none).2
  | .ext _ => m

/-- A publish on the manager's bus followed by the sequential execution
of every spawned subscriber thread. -/
def dispatchPublish (m : Manager) (event_type : String) (event_data : Option Val) :
    Bool × Manager :=
  let ev := mkEvent m.bus event_type event_data
  let cbs := notified m.bus event_type
  let (ok, b2) := publish m.bus event_type event_data
  if ok then
    (true, cbs.foldl (fun acc c => runCallback acc c ev) { m with bus := b2 })
  else (false, { m with bus := b2 })

/-! ## Observations -/

/-- `metrics['invocations'].get(name, 0)`. -/
def invCount (m : Manager) (name : String) : Nat := (lookupA m.invocations name).getD 0

/-- `metrics['errors'].get(name, 0)`. -/
def errCount (m : Manager) (name : String) : Nat := (lookupA m.errors name).getD 0

/-- Ghost: number of executions of the stored handler for a name. -/
def hcallCount (m : Manager) (name : String) : Nat := (lookupA m.hcalls name).getD 0

/-- `metrics['durations'].get(name, [])`. -/
def durList (m : Manager) (name : String) : List ℚ := (lookupA m.durations name).getD []

/-! ## Publish sequences (for the history-FIFO invariant) -/

/-- Run a sequence of `publish` calls (type, data) left to right. -/
def publishSeq (b : EventBus) (reqs : List (String × Option Val)) : EventBus :=
  reqs.foldl (fun acc r => (publish acc r.1 r.2).2) b

/-- The events the sequence of `publish` calls creates (one per call
whose type has a subscriber entry), in call order. -/
def publishSeqEvents : EventBus → List (String × Option Val) → List Event
  | _, [] => []
  | b, r :: rs =>
      if (lookupA b.subscribers r.1).isSome then
        mkEvent b r.1 r.2 :: publishSeqEvents (publish b r.1 r.2).2 rs
      else publishSeqEvents (publish b r.1 r.2).2 rs

/-! ## Concrete fixtures used by witnesses and counterexamples -/

/-- A handler that succeeds, echoing its payload; takes 1 time unit. -/
def echoHandler : Handler := ⟨1, fun p => .ret p⟩

/-- A handler that raises `"boom"` on every attempt. -/
def raiseHandler : Handler := ⟨1, fun _ => .raise "boom"⟩

/-- A handler that re-registers its own function (resetting that
function's metrics) and then raises. -/
def selfRegHandler : Handler :=
  ⟨0, fun _ => .reg "flaky" 0 (fun _ => .ret .vnull) none (.raise "boom")⟩

/-- `"echo"` registered with default options. -/
def mgrA : Manager := (registerFunction {} "echo" echoHandler none).2

/-- ... then invoked once (successfully). -/
def mgrB : Manager := (invokeFunction mgrA "echo" none none).2

/-- ... then re-registered under the same name. -/
def mgrC : Manager := (registerFunction mgrB "echo" echoHandler none).2

/-- `"boom"` registered with `retries = 2` and an always-raising
handler. -/
def boomMgr : Manager := (registerFunction {} "boom" raiseHandler (some { retries := some 2 })).2

/-- The configuration `boomMgr` stores for `"boom"`. -/
def boomCfg : FnConfig := ⟨"boom", raiseHandler, mergeOpts defaultOptions { retries := some 2 }⟩

/-- `"flaky"` registered with `retries = 0` and the self-registering
raising handler. -/
def mgrSelfReg : Manager :=
  (registerFunction {} "flaky" selfRegHandler (some { retries := some 0 })).2

/-- ... after one invocation. -/
def mgrSelfRegInvoked : Manager := (invokeFunction mgrSelfReg "flaky" none none).2

/-- A bus with one external subscriber for `"case.created"`. -/
def busOneSub : EventBus := { subscribers := [("case.created", [.ext 0])] }

/-- The configuration `mgrA`/`mgrB` stores for `"echo"`. -/
def echoCfg : FnConfig := ⟨"echo", echoHandler, mergeOpts defaultOptions {}⟩

/-! ## Association-list lemmas -/

theorem lookupA_setA_self {α : Type} (l : List (String × α)) (k : String) (v : α) :
    lookupA (setA l k v) k = some v := by
  induction l with
  | nil => simp [setA, lookupA]
  | cons p rest ih =>
    by_cases h : p.1 = k
    · simp [setA, lookupA, h]
    · simp [setA, lookupA, h, ih]

theorem lookupA_setA_ne {α : Type} (l : List (String × α)) (k k' : String) (v : α)
    (h : k ≠ k') : lookupA (setA l k v) k' = lookupA l k' := by
  induction l with
  | nil => simp [setA, lookupA, h]
  | cons p rest ih =>
    by_cases hp : p.1 = k
    · simp [setA, lookupA, hp, h]
    · by_cases hp' : p.1 = k'
      · simp [setA, lookupA, hp, hp', Ne.symm h]
      · simp [setA, lookupA, hp, hp', ih]

theorem lookupA_bumpA_self (l : List (String × Nat)) (k : String) :
    lookupA (bumpA l k) k = some ((lookupA l k).getD 0 + 1) := by
  simp [bumpA, lookupA_setA_self]

theorem lookupA_mem {α : Type} {l : List (String × α)} {k : String} {v : α}
    (h : lookupA l k = some v) : (k, v) ∈ l := by
  induction l with
  | nil => simp [lookupA] at h
  | cons p rest ih =>
    by_cases hp : p.1 = k
    · simp [lookupA, hp] at h
      cases p with
      | mk a b =>
        simp only at hp h
        subst hp
        subst h
        exact List.mem_cons_self _ _
    · simp [lookupA, hp] at h
      exact List.mem_cons_of_mem _ (ih h)

/-! ## Fidelity of the fuelled invocation

The wrapper `invokeFunction` satisfies exactly the recursive equation of
the source's `invoke_function` (in particular the fuel-out branch of
`invokeGo` is never reached from the wrapper). -/

theorem invokeFunction_eq (m : Manager) (name : String) (payload : Option Val)
    (options : Option InvOptions) :
    invokeFunction m name payload options =
      match lookupA m.functions name with
      | none => (err404 name, m)
      | some cfg =>
        let m1 : Manager :=
          { m with invocations := bumpA m.invocations name, hcalls := bumpA m.hcalls name }
        let pr := runProg m1 (cfg.handler.prog (payload.getD (.vdict [])))
        let m2 : Manager := { pr.2 with now := m.now + cfg.handler.dur }
        match pr.1 with
        | .ok v =>
          let ds2 := trimDur ((lookupA m2.durations name).getD [] ++ [cfg.handler.dur])
          (v, { m2 with durations := setA m2.durations name ds2 })
        | .error msg =>
          let m3 : Manager := { m2 with errors := bumpA m2.errors name }
          let r : Int :=
            match options with
            | some o => o.retries.getD cfg.options.retries
            | none => cfg.options.retries
          if r > 0 then
            invokeFunction m3 name payload (some { options.getD {} with retries := some (r - 1) })
          else (err500 msg, m3) := by
  unfold invokeFunction
  conv_lhs => rw [invokeGo]
  cases hl : lookupA m.functions name with
  | none => simp
  | some cfg =>
    simp only []
    have hre : invRetries m name options =
        (match options with
         | some o => o.retries.getD cfg.options.retries
         | none => cfg.options.retries) := by
      cases options <;> simp [invRetries, cfgRetries, hl]
    simp only [← hre]
    split
    · rfl
    · by_cases hpos : (0 : Int) < invRetries m name options
      · have hk : (invRetries m name options).toNat =
            (invRetries m name options - 1).toNat + 1 := by omega
        rw [hk]
        simp only [gt_iff_lt, hpos, if_true]
        simp [invRetries]
      · simp only [gt_iff_lt, hpos, if_false]

/-- Restatement of `invokeFunction_eq` with the retry budget named by
`invRetries`. -/
theorem invokeFunction_eq2 (m : Manager) (name : String) (payload : Option Val)
    (options : Option InvOptions) :
    invokeFunction m name payload options =
      match lookupA m.functions name with
      | none => (err404 name, m)
      | some cfg =>
        let m1 : Manager :=
          { m with invocations := bumpA m.invocations name, hcalls := bumpA m.hcalls name }
        let pr := runProg m1 (cfg.handler.prog (payload.getD (.vdict [])))
        let m2 : Manager := { pr.2 with now := m.now + cfg.handler.dur }
        match pr.1 with
        | .ok v =>
          let ds2 := trimDur ((lookupA m2.durations name).getD [] ++ [cfg.handler.dur])
          (v, { m2 with durations := setA m2.durations name ds2 })
        | .error msg =>
          let m3 : Manager := { m2 with errors := bumpA m2.errors name }
          if invRetries m name options > 0 then
            invokeFunction m3 name payload
              (some { options.getD {} with retries := some (invRetries m name options - 1) })
          else (err500 msg, m3) := by
  rw [invokeFunction_eq]
  cases hl : lookupA m.functions name with
  | none => rfl
  | some cfg =>
    simp only []
    split
    · rfl
    · have hm : (match options with
          | some o => o.retries.getD cfg.options.retries
          | none => cfg.options.retries) = invRetries m name options := by
        cases options <;> simp [invRetries, cfgRetries, hl]
      rw [hm]

/-- A successful attempt: the handler result is returned verbatim, one
invocation and one handler call are counted, the duration sample is
appended (keeping the last 100). -/
theorem invoke_ok_spec (m : Manager) (name : String) (payload : Option Val)
    (options : Option InvOptions) (cfg : FnConfig) (v : Val)
    (hcfg : lookupA m.functions name = some cfg)
    (hprog : cfg.handler.prog (payload.getD (.vdict [])) = .ret v) :
    invokeFunction m name payload options =
      (v, { m with
            invocations := bumpA m.invocations name
            hcalls := bumpA m.hcalls name
            durations := setA m.durations name
              (trimDur ((lookupA m.durations name).getD [] ++ [cfg.handler.dur]))
            now := m.now + cfg.handler.dur }) := by
  rw [invokeFunction_eq, hcfg]
  simp only [hprog, runProg]

/-- An always-raising handler: `invoke_function` makes exactly
`budget + 1` attempts (where `budget` is the retry budget read at
entry), returns the terminal 500 result, leaves the registry and the
duration samples untouched, and adds `budget + 1` to both the
invocation and the error counter (and to the ghost handler-call
counter). -/
theorem invoke_raise_spec (k : Nat) :
    ∀ (m : Manager) (name : String) (payload : Option Val) (options : Option InvOptions)
      (cfg : FnConfig) (msg : String),
      lookupA m.functions name = some cfg →
      (∀ v, cfg.handler.prog v = .raise msg) →
      invRetries m name options = (k : Int) →
      (invokeFunction m name payload options).1 = err500 msg ∧
      (invokeFunction m name payload options).2.functions = m.functions ∧
      (invokeFunction m name payload options).2.durations = m.durations ∧
      invCount (invokeFunction m name payload options).2 name = invCount m name + (k + 1) ∧
      errCount (invokeFunction m name payload options).2 name = errCount m name + (k + 1) ∧
      hcallCount (invokeFunction m name payload options).2 name = hcallCount m name + (k + 1) := by
  induction k with
  | zero =>
    intro m name payload options cfg msg hcfg hraise hbudget
    rw [invokeFunction_eq2, hcfg]
    simp only [hraise, runProg, hbudget]
    norm_num
    simp [invCount, errCount, hcallCount, lookupA_bumpA_self]
  | succ j ih =>
    intro m name payload options cfg msg hcfg hraise hbudget
    rw [invokeFunction_eq2, hcfg]
    simp only [hraise, runProg, hbudget]
    have hpos : ((j + 1 : Nat) : Int) > 0 := by positivity
    rw [if_pos hpos]
    have hstep := ih
      { m with
        invocations := bumpA m.invocations name
        hcalls := bumpA m.hcalls name
        errors := bumpA m.errors name
        now := m.now + cfg.handler.dur }
      name payload (some { options.getD {} with retries := some (((j + 1 : Nat) : Int) - 1) })
      cfg msg hcfg hraise (by simp [invRetries])
    refine ⟨hstep.1, hstep.2.1, hstep.2.2.1, ?_, ?_, ?_⟩
    · rw [hstep.2.2.2.1]
      simp [invCount, lookupA_bumpA_self]
      omega
    · rw [hstep.2.2.2.2.1]
      simp [errCount, lookupA_bumpA_self]
      omega
    · rw [hstep.2.2.2.2.2]
      simp [hcallCount, lookupA_bumpA_self]
      omega

/-! ## Claims -/

/-- C1: for every function registered with configured `retries = N`
(`N ≥ 0`) whose handler raises an exception on every attempt, a single
`invoke_function` call executes the handler exactly `N + 1` times,
increases `invocations[name]` and `errors[name]` by `N + 1`, and
returns `{statusCode: 500, body: {error: <the exception message>}}`. -/
theorem C1_retry_exhaustion (m : Manager) (name : String) (payload : Option Val)
    (cfg : FnConfig) (N : Nat) (msg : String)
    (hcfg : lookupA m.functions name = some cfg)
    (hretries : cfg.options.retries = (N : Int))
    (hraise : ∀ v, cfg.handler.prog v = .raise msg) :
    (invokeFunction m name payload none).1 =
      .vdict [("statusCode", .vint 500), ("body", .vdict [("error", .vstr msg)])] ∧
    hcallCount (invokeFunction m name payload none).2 name = hcallCount m name + (N + 1) ∧
    invCount (invokeFunction m name payload none).2 name = invCount m name + (N + 1) ∧
    errCount (invokeFunction m name payload none).2 name = errCount m name + (N + 1) := by
  have h := invoke_raise_spec N m name payload none cfg msg hcfg hraise
    (by simp [invRetries, cfgRetries, hcfg, hretries])
  exact ⟨h.1, h.2.2.2.2.2, h.2.2.2.1, h.2.2.2.2.1⟩

/-- Witness for C1: `"boom"` with `retries = 2` makes 3 attempts and
returns the terminal 500 result. -/
theorem C1_retry_exhaustion_witness :
    (invokeFunction boomMgr "boom" none none).1 =
      .vdict [("statusCode", .vint 500), ("body", .vdict [("error", .vstr "boom")])] ∧
    hcallCount (invokeFunction boomMgr "boom" none none).2 "boom" = hcallCount boomMgr "boom" + 3 ∧
    invCount (invokeFunction boomMgr "boom" none none).2 "boom" = invCount boomMgr "boom" + 3 ∧
    errCount (invokeFunction boomMgr "boom" none none).2 "boom" = errCount boomMgr "boom" + 3 :=
  C1_retry_exhaustion boomMgr "boom" none boomCfg 2 "boom" rfl rfl (fun _ => rfl)

/-- C6: invoking an unregistered function name returns a result with
`statusCode = 404`, raises nothing (the embedding is a total function
returning the 404 value), and leaves the whole manager state — registry
and all metrics — unchanged. -/
theorem C6_unknown_function (m : Manager) (name : String) (payload : Option Val)
    (options : Option InvOptions) (h : lookupA m.functions name = none) :
    (invokeFunction m name payload options).1 = err404 name ∧
    dictGet (invokeFunction m name payload options).1 "statusCode" = some (.vint 404) ∧
    (invokeFunction m name payload options).2 = m := by
  have he : invokeFunction m name payload options = (err404 name, m) := by
    rw [invokeFunction_eq, h]
  rw [he]
  exact ⟨rfl, rfl, rfl⟩

/-- Witness for C6 on the empty manager. -/
theorem C6_unknown_function_witness :
    (invokeFunction {} "missing" none none).1 = err404 "missing" ∧
    dictGet (invokeFunction {} "missing" none none).1 "statusCode" = some (.vint 404) ∧
    (invokeFunction {} "missing" none none).2 = ({} : Manager) :=
  C6_unknown_function {} "missing" none none rfl

/-- C9: `register_function` stores a configuration whose options equal
the defaults (`timeout 30000`, `memory_size 128`, empty environment,
`concurrency 100`, `retries 3`, empty events) overridden key-by-key by
the caller-supplied options, and returns `True`. -/
theorem C9_register_merge (m : Manager) (name : String) (h : Handler)
    (options : Option OptIn) :
    (registerFunction m name h options).1 = true ∧
    lookupA (registerFunction m name h options).2.functions name =
      some { name := name, handler := h,
             options :=
               { timeout := (options.getD {}).timeout.getD 30000
                 memory_size := (options.getD {}).memory_size.getD 128
                 environment := (options.getD {}).environment.getD (.vdict [])
                 concurrency := (options.getD {}).concurrency.getD 100
                 retries := (options.getD {}).retries.getD 3
                 events := (options.getD {}).events.getD [] } } := by
  refine ⟨rfl, ?_⟩
  unfold registerFunction
  simp only []
  split
  · simp [lookupA_setA_self, mergeOpts, defaultOptions]
  · simp [lookupA_setA_self, mergeOpts, defaultOptions]

/-- C3 counterexample: after registering `"echo"`, invoking it once
(metrics: 1 invocation, one duration sample), re-registering the same
name RESETS the metrics counters to zero instead of leaving them
unchanged. -/
theorem C3_counterexample :
    invCount mgrB "echo" = 1 ∧ durList mgrB "echo" = [1] ∧
    invCount mgrC "echo" = 0 ∧ durList mgrC "echo" = [] :=
  ⟨rfl, rfl, rfl, rfl⟩

/-- C3 (amended): re-registering an already-registered name overwrites
the stored configuration AND resets that name's metrics counters
(invocations, errors, durations) to zero/empty. -/
theorem C3_reregister_resets_metrics (m : Manager) (name : String) (h : Handler)
    (options : Option OptIn) (hprev : (lookupA m.functions name).isSome = true) :
    lookupA (registerFunction m name h options).2.functions name =
      some { name := name, handler := h, options := mergeOpts defaultOptions (options.getD {}) } ∧
    invCount (registerFunction m name h options).2 name = 0 ∧
    errCount (registerFunction m name h options).2 name = 0 ∧
    durList (registerFunction m name h options).2 name = [] := by
  unfold registerFunction
  simp only []
  split
  · simp [lookupA_setA_self, invCount, errCount, durList]
  · simp [lookupA_setA_self, invCount, errCount, durList]

/-- Witness for the amended C3: re-registering `"echo"` on `mgrB`
(where it is registered and has metrics 1 invocation, one sample)
yields zeroed metrics. -/
theorem C3_reregister_resets_metrics_witness :
    (lookupA mgrB.functions "echo").isSome = true ∧
    (lookupA mgrC.functions "echo" =
      some { name := "echo", handler := echoHandler,
             options := mergeOpts defaultOptions ({} : OptIn) } ∧
     invCount mgrC "echo" = 0 ∧ errCount mgrC "echo" = 0 ∧ durList mgrC "echo" = []) :=
  ⟨rfl, C3_reregister_resets_metrics mgrB "echo" echoHandler none rfl⟩

/-- C4: the invariant `invocations[name] >= errors[name]` is not
guaranteed: registering `"flaky"` with `retries = 0` whose handler
itself calls `register_function` for `"flaky"` (which resets the
counters) before raising, then invoking it once, leaves
`errors["flaky"] = 1 > 0 = invocations["flaky"]`. -/
theorem C4_invariant_violated :
    errCount mgrSelfRegInvoked "flaky" = 1 ∧
    invCount mgrSelfRegInvoked "flaky" = 0 ∧
    ¬ invCount mgrSelfRegInvoked "flaky" ≥ errCount mgrSelfRegInvoked "flaky" :=
  ⟨rfl, rfl, by decide⟩

/-- C2: `publish` returns `false` and leaves the bus (history included)
unchanged when the subscriber mapping has no entry for the type; with
at least one subscriber it returns `true` and appends exactly one new
event carrying the type, the data, a fresh id (distinct from every id
in the history) and the publish-time timestamp, evicting the oldest
entry if the history would exceed 100. -/
theorem C2_publish (b : EventBus) (t : String) (d : Option Val)
    (hfresh : ∀ e ∈ b.event_history, e.id < b.uuidCtr) :
    (lookupA b.subscribers t = none → publish b t d = (false, b)) ∧
    (∀ cbs, lookupA b.subscribers t = some cbs → cbs ≠ [] →
      (publish b t d).1 = true ∧
      ∃ ev : Event, ev.type = t ∧ ev.data = d.getD (.vdict []) ∧
        ev.timestamp = b.now ∧ (∀ e ∈ b.event_history, e.id ≠ ev.id) ∧
        (publish b t d).2.event_history =
          (if b.event_history.length + 1 > maxHistory
           then (b.event_history ++ [ev]).drop 1
           else b.event_history ++ [ev]) ∧
        (publish b t d).2.subscribers = b.subscribers) := by
  constructor
  · intro h
    unfold publish
    rw [h]
  · intro cbs hsub hne
    constructor
    · unfold publish
      rw [hsub]
    · refine ⟨mkEvent b t d, rfl, rfl, rfl, ?_, ?_, ?_⟩
      · exact fun e he => Nat.ne_of_lt (hfresh e he)
      · unfold publish
        rw [hsub]
        simp
      · unfold publish
        rw [hsub]

/-- Witness for C2 on a bus with one subscriber for `"case.created"`
and an empty history. -/
theorem C2_publish_witness :
    (publish busOneSub "case.created" none).1 = true ∧
    ∃ ev : Event, ev.type = "case.created" ∧ ev.data = (none : Option Val).getD (.vdict []) ∧
      ev.timestamp = busOneSub.now ∧ (∀ e ∈ busOneSub.event_history, e.id ≠ ev.id) ∧
      (publish busOneSub "case.created" none).2.event_history =
        (if busOneSub.event_history.length + 1 > maxHistory
         then (busOneSub.event_history ++ [ev]).drop 1
         else busOneSub.event_history ++ [ev]) ∧
      (publish busOneSub "case.created" none).2.subscribers = busOneSub.subscribers :=
  (C2_publish busOneSub "case.created" none
      (by intro e he; exact absurd he (List.not_mem_nil e))).2
    [.ext 0] rfl (by decide)

/-- `list.remove` characterization: when the element is present, the
list splits as `l₁ ++ c :: l₂` with `c ∉ l₁` and exactly that first
occurrence is removed. -/
theorem removeFirst_decomp (cbs : List Callback) (c : Callback) (hc : c ∈ cbs) :
    ∃ l₁ l₂, cbs = l₁ ++ c :: l₂ ∧ c ∉ l₁ ∧ removeFirst cbs c = l₁ ++ l₂ := by
  induction cbs with
  | nil => cases hc
  | cons x xs ih =>
    by_cases hx : x = c
    · exact ⟨[], xs, by simp [hx], by simp, by simp [removeFirst, hx]⟩
    · have hc' : c ∈ xs := by
        rcases List.mem_cons.mp hc with h1 | h1
        · exact absurd h1.symm hx
        · exact h1
      obtain ⟨l₁, l₂, he, hn, hr⟩ := ih hc'
      refine ⟨x :: l₁, l₂, by simp [he], ?_, by simp [removeFirst, hx, hr]⟩
      intro hmem
      rcases List.mem_cons.mp hmem with h1 | h1
      · exact hx h1.symm
      · exact hn h1

/-- C7: `unsubscribe` returns `false` and leaves the subscriber mapping
unchanged when the type has no entry or the callback is absent;
otherwise it returns `true` and removes exactly the first matching
occurrence, leaving every other event type's subscribers untouched. -/
theorem C7_unsubscribe (b : EventBus) (t : String) (c : Callback) :
    (lookupA b.subscribers t = none → unsubscribe b t c = (false, b)) ∧
    (∀ cbs, lookupA b.subscribers t = some cbs → c ∉ cbs → unsubscribe b t c = (false, b)) ∧
    (∀ cbs, lookupA b.subscribers t = some cbs → c ∈ cbs →
      (unsubscribe b t c).1 = true ∧
      ∃ l₁ l₂, cbs = l₁ ++ c :: l₂ ∧ c ∉ l₁ ∧
        lookupA (unsubscribe b t c).2.subscribers t = some (l₁ ++ l₂) ∧
        ∀ t2, t2 ≠ t → lookupA (unsubscribe b t c).2.subscribers t2 = lookupA b.subscribers t2) := by
  refine ⟨?_, ?_, ?_⟩
  · intro h
    unfold unsubscribe
    rw [h]
  · intro cbs hsub hc
    unfold unsubscribe
    rw [hsub]
    simp [hc]
  · intro cbs hsub hc
    obtain ⟨l₁, l₂, he, hn, hr⟩ := removeFirst_decomp cbs c hc
    constructor
    · unfold unsubscribe
      rw [hsub]
      simp [hc]
    · refine ⟨l₁, l₂, he, hn, ?_, ?_⟩
      · unfold unsubscribe
        rw [hsub]
        simp [hc, lookupA_setA_self, hr]
      · intro t2 ht2
        unfold unsubscribe
        rw [hsub]
        simp [hc, lookupA_setA_ne _ _ _ _ (Ne.symm ht2)]

/-- Dropping `k + 1` from an appended list equals first popping the
head of the non-empty left part, then dropping `k`. -/
theorem drop_one_shift {α : Type} (A B : List α) (k : Nat) (h : 1 ≤ A.length) :
    (A ++ B).drop (k + 1) = (A.drop 1 ++ B).drop k := by
  rw [Nat.add_comm k 1, ← List.drop_drop, List.drop_append_of_le_length h]

/-- `publish` on an unknown type is the identity returning `False`. -/
theorem publish_no_subscriber (b : EventBus) (t : String) (d : Option Val)
    (h : lookupA b.subscribers t = none) : publish b t d = (false, b) := by
  unfold publish
  rw [h]

/-- The history after a subscribed `publish`. -/
theorem publish_subscribed_history (b : EventBus) (t : String) (d : Option Val)
    (cbs : List Callback) (h : lookupA b.subscribers t = some cbs) :
    (publish b t d).2.event_history =
      if b.event_history.length + 1 > maxHistory
      then (b.event_history ++ [mkEvent b t d]).drop 1
      else b.event_history ++ [mkEvent b t d] := by
  unfold publish
  rw [h]
  simp

/-- Witness for C7: removing the only subscriber of `"case.created"`. -/
theorem C7_unsubscribe_witness :
    (unsubscribe busOneSub "case.created" (.ext 0)).1 = true ∧
    ∃ l₁ l₂, [Callback.ext 0] = l₁ ++ Callback.ext 0 :: l₂ ∧ Callback.ext 0 ∉ l₁ ∧
      lookupA (unsubscribe busOneSub "case.created" (.ext 0)).2.subscribers "case.created" =
        some (l₁ ++ l₂) ∧
      ∀ t2, t2 ≠ "case.created" →
        lookupA (unsubscribe busOneSub "case.created" (.ext 0)).2.subscribers t2 =
          lookupA busOneSub.subscribers t2 :=
  (C7_unsubscribe busOneSub "case.created" (.ext 0)).2.2 [.ext 0] rfl (by decide)

/-- C5: the event history is a bounded FIFO.  Starting from any bus
whose history respects the 100-entry bound, after any sequence of
`publish` calls the history still has at most 100 entries, and it is
exactly the in-call-order sequence of previous entries followed by the
events the successful publishes created, with the oldest entries
dropped as soon as the total exceeds 100. -/
theorem C5_history_fifo (reqs : List (String × Option Val)) :
    ∀ b : EventBus, b.event_history.length ≤ maxHistory →
      (publishSeq b reqs).event_history.length ≤ maxHistory ∧
      (publishSeq b reqs).event_history =
        (b.event_history ++ publishSeqEvents b reqs).drop
          (b.event_history.length + (publishSeqEvents b reqs).length - maxHistory) := by
  induction reqs with
  | nil =>
    intro b hlen
    refine ⟨hlen, ?_⟩
    simp [publishSeq, publishSeqEvents, Nat.sub_eq_zero_of_le hlen]
  | cons r rs ih =>
    intro b hlen
    cases hsub : lookupA b.subscribers r.1 with
    | none =>
      have hpub : publish b r.1 r.2 = (false, b) := publish_no_subscriber b r.1 r.2 hsub
      have hseq : publishSeq b (r :: rs) = publishSeq b rs := by
        show publishSeq (publish b r.1 r.2).2 rs = publishSeq b rs
        rw [hpub]
      have hev : publishSeqEvents b (r :: rs) = publishSeqEvents b rs := by
        rw [publishSeqEvents, hsub]
        simp [hpub]
      rw [hseq, hev]
      exact ih b hlen
    | some cbs =>
      have hseq : publishSeq b (r :: rs) = publishSeq (publish b r.1 r.2).2 rs := rfl
      have hhist := publish_subscribed_history b r.1 r.2 cbs hsub
      have hev : publishSeqEvents b (r :: rs) =
          mkEvent b r.1 r.2 :: publishSeqEvents (publish b r.1 r.2).2 rs := by
        rw [publishSeqEvents, hsub]
        rfl
      have hlen2 : (publish b r.1 r.2).2.event_history.length ≤ maxHistory := by
        rw [hhist]
        split
        · simp only [List.length_drop, List.length_append, List.length_singleton]
          omega
        · rename_i hcond
          simp only [List.length_append, List.length_singleton]
          simp only [maxHistory, gt_iff_lt, not_lt] at hcond ⊢
          omega
      obtain ⟨ih1, ih2⟩ := ih (publish b r.1 r.2).2 hlen2
      rw [hseq, hev]
      refine ⟨ih1, ?_⟩
      rw [ih2, hhist]
      by_cases hc : b.event_history.length + 1 > maxHistory
      · rw [if_pos hc]
        have hLfull : b.event_history.length = maxHistory := by
          simp only [maxHistory] at hc hlen ⊢
          omega
        have hamt1 : ((b.event_history ++ [mkEvent b r.1 r.2]).drop 1).length +
            (publishSeqEvents (publish b r.1 r.2).2 rs).length - maxHistory =
            (publishSeqEvents (publish b r.1 r.2).2 rs).length := by
          simp only [List.length_drop, List.length_append, List.length_singleton]
          omega
        have hamt2 : b.event_history.length +
            (mkEvent b r.1 r.2 :: publishSeqEvents (publish b r.1 r.2).2 rs).length - maxHistory =
            (publishSeqEvents (publish b r.1 r.2).2 rs).length + 1 := by
          simp only [List.length_cons]
          omega
        rw [hamt1, hamt2]
        have hsplit : b.event_history ++ mkEvent b r.1 r.2 ::
            publishSeqEvents (publish b r.1 r.2).2 rs =
            (b.event_history ++ [mkEvent b r.1 r.2]) ++
              publishSeqEvents (publish b r.1 r.2).2 rs := by
          simp
        rw [hsplit, drop_one_shift (b.event_history ++ [mkEvent b r.1 r.2])
          (publishSeqEvents (publish b r.1 r.2).2 rs)
          (publishSeqEvents (publish b r.1 r.2).2 rs).length (by simp)]
      · rw [if_neg hc]
        have hamt : (b.event_history ++ [mkEvent b r.1 r.2]).length +
            (publishSeqEvents (publish b r.1 r.2).2 rs).length - maxHistory =
            b.event_history.length +
              (mkEvent b r.1 r.2 :: publishSeqEvents (publish b r.1 r.2).2 rs).length -
              maxHistory := by
          simp only [List.length_append, List.length_singleton, List.length_cons,
            List.length_nil, maxHistory]
          omega
        rw [hamt]
        have hsplit : b.event_history ++ mkEvent b r.1 r.2 ::
            publishSeqEvents (publish b r.1 r.2).2 rs =
            (b.event_history ++ [mkEvent b r.1 r.2]) ++
              publishSeqEvents (publish b r.1 r.2).2 rs := by
          simp
        rw [hsplit]

/-- The retained duration samples never exceed 100 entries. -/
theorem trimDur_length (l : List ℚ) : (trimDur l).length ≤ 100 := by
  unfold trimDur
  split
  · simp only [List.length_drop]
    omega
  · rename_i h
    omega

/-- `register_function` resets the registered name's duration list and
touches no other name's durations. -/
theorem durList_register (m : Manager) (name : String) (h : Handler) (o : Option OptIn)
    (k : String) :
    durList (registerFunction m name h o).2 k = if name = k then [] else durList m k := by
  unfold registerFunction durList
  simp only []
  split
  · by_cases hk : name = k
    · subst hk
      simp [lookupA_setA_self]
    · simp [hk, lookupA_setA_ne _ _ _ _ hk]
  · by_cases hk : name = k
    · subst hk
      simp [lookupA_setA_self]
    · simp [hk, lookupA_setA_ne _ _ _ _ hk]

/-- Handler programs preserve the duration-retention bound. -/
theorem runProg_durations_le (p : HProg) :
    ∀ m : Manager, (∀ k, (durList m k).length ≤ 100) →
      ∀ k, (durList (runProg m p).2 k).length ≤ 100 := by
  induction p with
  | ret v => exact fun m hm k => hm k
  | raise s => exact fun m hm k => hm k
  | reg n d f o kont ihf ihk =>
    intro m hm k
    apply ihk
    intro k2
    rw [durList_register]
    split
    · simp
    · exact hm k2

/-- `invoke_function` (at any fuel) preserves the duration-retention
bound: every name's sample list stays at ≤ 100 entries. -/
theorem invokeGo_durations_le (fuel : Nat) :
    ∀ (m : Manager) (name : String) (p : Option Val) (o : Option InvOptions),
      (∀ k, (durList m k).length ≤ 100) →
      ∀ k, (durList (invokeGo m name p o fuel).2 k).length ≤ 100 := by
  induction fuel with
  | zero =>
    intro m name p o hm k
    rw [invokeGo]
    split
    · exact hm k
    · rename_i cfg hl
      simp only []
      have hrun := runProg_durations_le (cfg.handler.prog (p.getD (.vdict [])))
        { m with invocations := bumpA m.invocations name, hcalls := bumpA m.hcalls name }
        (fun k2 => hm k2)
      split
      · simp only [durList]
        by_cases hk : name = k
        · subst hk
          rw [lookupA_setA_self]
          exact trimDur_length _
        · rw [lookupA_setA_ne _ _ _ _ hk]
          exact hrun k
      · split
        · exact hrun k
        · exact hrun k
  | succ f ih =>
    intro m name p o hm k
    rw [invokeGo]
    split
    · exact hm k
    · rename_i cfg hl
      simp only []
      have hrun := runProg_durations_le (cfg.handler.prog (p.getD (.vdict [])))
        { m with invocations := bumpA m.invocations name, hcalls := bumpA m.hcalls name }
        (fun k2 => hm k2)
      split
      · simp only [durList]
        by_cases hk : name = k
        · subst hk
          rw [lookupA_setA_self]
          exact trimDur_length _
        · rw [lookupA_setA_ne _ _ _ _ hk]
          exact hrun k
      · split
        · apply ih
          intro k2
          exact hrun k2
        · exact hrun k

/-- C8: `list_functions` is a pure read reporting, for each registered
function, `avg_duration = 0` when no duration samples are recorded and
the arithmetic mean (sum over count) of the retained samples otherwise;
and `invoke_function` retains at most the last 100 samples per name. -/
theorem C8_avg_duration (m : Manager) (name : String) (cfg : FnConfig)
    (hcfg : lookupA m.functions name = some cfg) :
    (listFunctions m).2 = m ∧
    (∃ info ∈ (listFunctions m).1, info.name = name ∧
       (durList m name = [] → info.avg_duration = 0) ∧
       (durList m name ≠ [] →
         info.avg_duration = (durList m name).sum / (durList m name).length)) ∧
    (∀ (m2 : Manager) (nm : String) (p : Option Val) (o : Option InvOptions),
       (∀ k, (durList m2 k).length ≤ 100) →
       ∀ k, (durList (invokeFunction m2 nm p o).2 k).length ≤ 100) := by
  refine ⟨rfl, ?_, ?_⟩
  · refine ⟨_, List.mem_map_of_mem _ (lookupA_mem hcfg), rfl, ?_, ?_⟩
    · intro hd
      unfold durList at hd
      simp [listFunctions, calcAvgDuration, hd]
    · intro hd
      unfold durList at hd
      simp only [listFunctions, calcAvgDuration]
      rw [if_neg hd]
      rfl
  · intro m2 nm p o hb k
    exact invokeGo_durations_le _ m2 nm p o hb k

/-- Witness for C5: one subscriber, two publishes starting from the
empty history. -/
theorem C5_history_fifo_witness :
    busOneSub.event_history.length ≤ maxHistory ∧
    ((publishSeq busOneSub [("case.created", none), ("case.created", none)]).event_history.length
        ≤ maxHistory ∧
     (publishSeq busOneSub [("case.created", none), ("case.created", none)]).event_history =
       (busOneSub.event_history ++
          publishSeqEvents busOneSub [("case.created", none), ("case.created", none)]).drop
         (busOneSub.event_history.length +
            (publishSeqEvents busOneSub [("case.created", none), ("case.created", none)]).length -
            maxHistory)) :=
  ⟨by decide,
   C5_history_fifo [("case.created", none), ("case.created", none)] busOneSub (by decide)⟩

/-- Witness for C8 on `"echo"` after one successful invocation (one
retained sample). -/
theorem C8_avg_duration_witness :
    (listFunctions mgrB).2 = mgrB ∧
    (∃ info ∈ (listFunctions mgrB).1, info.name = "echo" ∧
       (durList mgrB "echo" = [] → info.avg_duration = 0) ∧
       (durList mgrB "echo" ≠ [] →
         info.avg_duration = (durList mgrB "echo").sum / (durList mgrB "echo").length)) ∧
    (∀ (m2 : Manager) (nm : String) (p : Option Val) (o : Option InvOptions),
       (∀ k, (durList m2 k).length ≤ 100) →
       ∀ k, (durList (invokeFunction m2 nm p o).2 k).length ≤ 100) :=
  C8_avg_duration mgrB "echo" echoCfg rfl

/-- `dispatch` of a publish with a subscriber entry: returns `true` and
runs every spawned callback in order. -/
theorem dispatchPublish_subscribed (m : Manager) (t : String) (d : Option Val)
    (cbs : List Callback) (h : lookupA m.bus.subscribers t = some cbs) :
    dispatchPublish m t d =
      (true, cbs.foldl (fun acc c => runCallback acc c (mkEvent m.bus t d))
        { m with bus := (publish m.bus t d).2 }) := by
  unfold dispatchPublish notified publish
  rw [h]
  simp

/-- Counting effect of one invocation of a function whose handler
always succeeds. -/
theorem invoke_ret_counts (m2 : Manager) (fname : String) (plv : Option Val)
    (cfg : FnConfig) (hcfg : lookupA m2.functions fname = some cfg)
    (hret : ∀ v, ∃ w, cfg.handler.prog v = .ret w) :
    (invokeFunction m2 fname plv none).2.functions = m2.functions ∧
    invCount (invokeFunction m2 fname plv none).2 fname = invCount m2 fname + 1 ∧
    hcallCount (invokeFunction m2 fname plv none).2 fname = hcallCount m2 fname + 1 := by
  obtain ⟨w, hw⟩ := hret (plv.getD (.vdict []))
  rw [invoke_ok_spec m2 fname plv none cfg w hcfg hw]
  simp [invCount, hcallCount, lookupA_bumpA_self]

/-- Running the two invoke-closures subscribed for one function adds 2
to its invocation counter and executes its handler twice. -/
theorem runCallback_pair (m2 : Manager) (fname : String) (ev : Event) (cfg : FnConfig)
    (hcfg : lookupA m2.functions fname = some cfg)
    (hret : ∀ v, ∃ w, cfg.handler.prog v = .ret w) :
    invCount (runCallback (runCallback m2 (.regClosure fname) ev) (.ehClosure fname) ev) fname =
      invCount m2 fname + 2 ∧
    hcallCount (runCallback (runCallback m2 (.regClosure fname) ev) (.ehClosure fname) ev) fname =
      hcallCount m2 fname + 2 := by
  have h1 := invoke_ret_counts m2 fname (some (eventVal ev)) cfg hcfg hret
  have h2 := invoke_ret_counts (invokeFunction m2 fname (some (eventVal ev)) none).2 fname
    (some (eventVal ev)) cfg (by rw [h1.1]; exact hcfg) hret
  simp only [runCallback]
  constructor
  · rw [h2.2.1, h1.2.1]
  · rw [h2.2.2, h1.2.2]

/-- C10: applying the `event_handler(event_type)` decorator appends TWO
distinct callbacks for the event type to the bus's subscriber list —
the closure `register_function` creates from the `events` option and
the closure the decorator subscribes directly — so a single publish of
that event type causes `invoke_function` to be called twice for the
function. -/
theorem C10_event_handler_double (m : Manager) (t fname : String) (fdur : ℚ)
    (rv : Val → Val) (dat : Option Val)
    (hnosub : lookupA m.bus.subscribers t = none) :
    lookupA (eventHandler m t fname fdur (fun d => .ret (rv d)) none).bus.subscribers t =
      some [.regClosure fname, .ehClosure fname] ∧
    Callback.regClosure fname ≠ Callback.ehClosure fname ∧
    (dispatchPublish (eventHandler m t fname fdur (fun d => .ret (rv d)) none) t dat).1 = true ∧
    invCount (dispatchPublish (eventHandler m t fname fdur (fun d => .ret (rv d)) none) t dat).2
      fname = 2 ∧
    hcallCount (dispatchPublish (eventHandler m t fname fdur (fun d => .ret (rv d)) none) t dat).2
      fname = hcallCount m fname + 2 := by
  have hsubs : lookupA (eventHandler m t fname fdur (fun d => .ret (rv d)) none).bus.subscribers t =
      some [.regClosure fname, .ehClosure fname] := by
    unfold eventHandler registerFunction subscribe
    simp [hnosub, lookupA_setA_self]
  have hcfg : lookupA (eventHandler m t fname fdur (fun d => .ret (rv d)) none).functions fname =
      some { name := fname
             handler := ⟨fdur, fun payload =>
               HProg.ret (rv ((dictGet payload "detail").getD (.vdict [])))⟩
             options := mergeOpts defaultOptions { events := some [t] } } := by
    unfold eventHandler registerFunction
    simp [lookupA_setA_self]
  have haccf : lookupA ({ eventHandler m t fname fdur (fun d => .ret (rv d)) none with
      bus := (publish (eventHandler m t fname fdur (fun d => .ret (rv d)) none).bus t dat).2 }
        : Manager).functions fname =
      some { name := fname
             handler := ⟨fdur, fun payload =>
               HProg.ret (rv ((dictGet payload "detail").getD (.vdict [])))⟩
             options := mergeOpts defaultOptions { events := some [t] } } := hcfg
  have hret : ∀ v, ∃ w,
      (⟨fdur, fun payload => HProg.ret (rv ((dictGet payload "detail").getD (.vdict [])))⟩
        : Handler).prog v = .ret w :=
    fun v => ⟨_, rfl⟩
  have hM0 : lookupA (eventHandler m t fname fdur (fun d => .ret (rv d)) none).invocations
      fname = some 0 := by
    unfold eventHandler registerFunction
    simp [lookupA_setA_self]
  have hMh : (eventHandler m t fname fdur (fun d => .ret (rv d)) none).hcalls = m.hcalls := by
    unfold eventHandler registerFunction
    simp only []
    split <;> rfl
  refine ⟨hsubs, by simp, ?_, ?_, ?_⟩
  · rw [dispatchPublish_subscribed _ _ _ _ hsubs]
  · rw [dispatchPublish_subscribed _ _ _ _ hsubs]
    simp only [List.foldl_cons, List.foldl_nil]
    rw [(runCallback_pair _ fname _ _ haccf hret).1]
    simp [invCount, hM0]
  · rw [dispatchPublish_subscribed _ _ _ _ hsubs]
    simp only [List.foldl_cons, List.foldl_nil]
    rw [(runCallback_pair _ fname _ _ haccf hret).2]
    simp [hcallCount, hMh]

/-- Witness for C10: the decorator on `"onlogin"` for `"user.login"`,
then one publish. -/
theorem C10_event_handler_double_witness :
    lookupA (eventHandler {} "user.login" "onlogin" 1 (fun d => .ret (id d)) none).bus.subscribers
      "user.login" = some [.regClosure "onlogin", .ehClosure "onlogin"] ∧
    Callback.regClosure "onlogin" ≠ Callback.ehClosure "onlogin" ∧
    (dispatchPublish (eventHandler {} "user.login" "onlogin" 1 (fun d => .ret (id d)) none)
      "user.login" (some (.vdict [("user_id", .vint 5)]))).1 = true ∧
    invCount (dispatchPublish (eventHandler {} "user.login" "onlogin" 1 (fun d => .ret (id d)) none)
      "user.login" (some (.vdict [("user_id", .vint 5)]))).2 "onlogin" = 2 ∧
    hcallCount (dispatchPublish
      (eventHandler {} "user.login" "onlogin" 1 (fun d => .ret (id d)) none)
      "user.login" (some (.vdict [("user_id", .vint 5)]))).2 "onlogin" =
      hcallCount {} "onlogin" + 2 :=
  C10_event_handler_double {} "user.login" "onlogin" 1 id
    (some (.vdict [("user_id", .vint 5)])) rfl

end Serverless
